import Mathlib

/-!
Verification of the dual_camera_player camera-stream core: the time-delayed
frame buffer, the capture-loop cycle, runtime delay reconfiguration, and the
recording sink, as implemented by `CameraStream` in `camera.py` (threaded
variant used by `main_qt5.py`) and by `CameraStream` in `main.py`.

Frames are abstracted to opaque identifiers; timestamps and delays are exact
rationals standing for the wall-clock seconds the Python code manipulates.
One iteration of the capture thread's `while` body is modelled as a pure
state-transition function that also returns the list of externally visible
effects (writes to the encoder's stdin, process management calls).  A cycle
that would raise an uncaught Python exception (writing `None` to the encoder)
is modelled as `none`.
-/

/-- Frames are opaque payload identifiers. -/
abbrev Frame := ℕ

/-- Externally visible effects of one operation: bytes written to the
encoder's stdin, closing that pipe, waiting for the encoder process, or
spawning a new encoder process bound to a destination file. -/
inductive Effect where
  | sinkWrite (f : Frame)
  | stdinClose
  | processWait
  | spawnEncoder (filename : String)
  deriving DecidableEq, Repr

/-- Result of one `cap.read()` call: either no frame (`ret` false) or a
captured frame. -/
inductive Capture where
  | fail
  | ok (frame : Frame)
  deriving DecidableEq, Repr

/-- State of `camera.py`'s `CameraStream` (the fields assigned in
`__init__`, with the delay buffer as an ordered list of
timestamp/frame pairs and the ffmpeg process handle as an optional pid). -/
structure CameraState where
  cam_index : ℕ
  delay_sec : ℚ
  delay_sec_max : ℚ
  fps : ℕ
  height : ℕ
  width : ℕ
  now_fps : ℕ
  frame : Option Frame
  running : Bool
  recording : Bool
  process : Option ℕ
  writer : Option ℕ
  buffer : List (ℚ × Frame)
  deriving DecidableEq, Repr

/-- `CameraStream.__init__` from `camera.py`: empty buffer, no published
frame, not recording, no encoder process. -/
def cameraInit (cam_index : ℕ) (delay_sec delay_sec_max : ℚ)
    (fps height width : ℕ) : CameraState :=
  { cam_index := cam_index
    delay_sec := delay_sec
    delay_sec_max := delay_sec_max
    fps := fps
    height := height
    width := width
    now_fps := 0
    frame := none
    running := true
    recording := false
    process := none
    writer := none
    buffer := [] }

/-- Buffer maintenance from `camera.py` lines 48-49: keep the entries whose
age relative to the new timestamp is at most `delay_sec_max`, then append
the newly captured entry. -/
def evictPush (buffer : List (ℚ × Frame)) (timestamp delay_sec_max : ℚ)
    (frame : Frame) : List (ℚ × Frame) :=
  (buffer.filter fun b => decide (timestamp - b.1 ≤ delay_sec_max)) ++
    [(timestamp, frame)]

/-- The scan of `camera.py` lines 52-56: walk the buffer front (oldest) to
back (newest); while the entry's age is at least `delay_sec` remember its
frame, and stop at the first entry that is too young. -/
def selectGo (timestamp delay_sec : ℚ) :
    List (ℚ × Frame) → Option Frame → Option Frame
  | [], delayed_frame => delayed_frame
  | (t, f) :: rest, delayed_frame =>
    if timestamp - t ≥ delay_sec then
      selectGo timestamp delay_sec rest (some f)
    else delayed_frame

/-- Delayed-frame selection of `camera.py` lines 51-56: the scan started
with `delayed_frame = None`. -/
def selectDelayed (buffer : List (ℚ × Frame)) (timestamp delay_sec : ℚ) :
    Option Frame :=
  selectGo timestamp delay_sec buffer none

/-- Same scan as `selectGo` but remembering the whole `(timestamp, frame)`
entry, used to reason about the timestamp of the selected frame. -/
def selectEntryGo (timestamp delay_sec : ℚ) :
    List (ℚ × Frame) → Option (ℚ × Frame) → Option (ℚ × Frame)
  | [], delayed => delayed
  | (t, f) :: rest, delayed =>
    if timestamp - t ≥ delay_sec then
      selectEntryGo timestamp delay_sec rest (some (t, f))
    else delayed

/-- Entry-valued counterpart of `selectDelayed`. -/
def selectEntry (buffer : List (ℚ × Frame)) (timestamp delay_sec : ℚ) :
    Option (ℚ × Frame) :=
  selectEntryGo timestamp delay_sec buffer none

/-- One iteration of `CameraStream.loop` from `camera.py` lines 41-63:
on a failed read the cycle is skipped (`continue`); otherwise the frame is
timestamped, old entries are evicted and the frame pushed, the delayed frame
is selected and published, and if recording is active with a live process the
delayed frame's bytes are written to the encoder's stdin.  Writing when the
selection produced `None` would raise (`None.astype`), modelled as `none`. -/
def loopCycle (s : CameraState) (cap : Capture) (timestamp : ℚ) :
    Option (CameraState × List Effect) :=
  match cap with
  | .fail => some (s, [])
  | .ok frame =>
    let buffer := evictPush s.buffer timestamp s.delay_sec_max frame
    let delayed := selectDelayed buffer timestamp s.delay_sec
    let s1 : CameraState := { s with buffer := buffer, frame := delayed }
    if s1.recording && s1.process.isSome then
      match delayed with
      | none => none
      | some f => some (s1, [Effect.sinkWrite f])
    else some (s1, [])

/-- Error surface named by the recording contract; `camera.py` never
actually signals either value. -/
inductive RecErr where
  | AlreadyRecording
  | SinkUnavailable
  deriving DecidableEq, Repr

/-- `CameraStream.start_recording` from `camera.py` lines 66-78: if already
recording, return silently; otherwise spawn an ffmpeg process bound to the
destination (its pid supplied here as `pid`) and set the recording flag. -/
def start_recording (s : CameraState) (filename : String) (pid : ℕ) :
    Except RecErr (CameraState × List Effect) :=
  if s.recording then Except.ok (s, [])
  else
    Except.ok ({ s with process := some pid, recording := true },
      [Effect.spawnEncoder filename])

/-- `CameraStream.stop_recording` from `camera.py` lines 80-88: if not
recording, return; otherwise clear the flag, close the encoder's stdin,
wait for the process and drop the handle.  Accessing `stdin` on a missing
process would raise, modelled as `none`. -/
def stop_recording (s : CameraState) : Option (CameraState × List Effect) :=
  if s.recording then
    match s.process with
    | none => none
    | some _ =>
      some ({ s with recording := false, process := none },
        [Effect.stdinClose, Effect.processWait])
  else some (s, [])

/-- `CameraStream.set_delay` from `camera.py` lines 94-96: clamp the
requested delay to `[0, delay_sec_max - 1]` and store it. -/
def set_delay (s : CameraState) (delay_sec : ℚ) : CameraState :=
  { s with delay_sec := min (max 0 delay_sec) (s.delay_sec_max - 1) }

/-- The implicit handle invariant: whenever the recording flag is set, the
encoder process handle is present. -/
def procInv (s : CameraState) : Prop :=
  s.recording = true → s.process.isSome = true

instance (s : CameraState) : Decidable (procInv s) := by
  unfold procInv
  infer_instance

/-- State of `main.py`'s `CameraStream` variant. -/
structure MCamState where
  cam_index : ℕ
  delay_sec : ℚ
  fps : ℕ
  buffer : List (ℚ × Frame)
  running : Bool
  frame : Option Frame
  delay_frame : Option Frame
  recording : Bool
  writer : Option ℕ
  deriving DecidableEq, Repr

/-- The `while ... pop(0)` eviction of `main.py` lines 43-44: drop entries
from the front while the head is older than `delay_sec`. -/
def dropWhileOld (timestamp delay_sec : ℚ) :
    List (ℚ × Frame) → List (ℚ × Frame)
  | [] => []
  | (t, f) :: rest =>
    if timestamp - t > delay_sec then dropWhileOld timestamp delay_sec rest
    else (t, f) :: rest

/-- One iteration of `CameraStream.update` from `main.py` lines 36-49:
append the stamped frame, evict old entries from the front, publish the raw
frame and the oldest buffered frame as the delayed one, and while recording
write the raw frame to the writer. -/
def mUpdateCycle (s : MCamState) (cap : Capture) (timestamp : ℚ) :
    MCamState × List Effect :=
  match cap with
  | .fail => (s, [])
  | .ok frame =>
    let buffer := dropWhileOld timestamp s.delay_sec (s.buffer ++ [(timestamp, frame)])
    let delay_frame : Option Frame :=
      match buffer with
      | [] => some frame
      | (_, f) :: _ => some f
    let s1 : MCamState :=
      { s with buffer := buffer, frame := some frame, delay_frame := delay_frame }
    if s1.recording && s1.writer.isSome then (s1, [Effect.sinkWrite frame])
    else (s1, [])

/-- A state of the `camera.py` stream in which a recording session is
active, the requested delay is 3 s and one three-second-old entry is
buffered. -/
def recState : CameraState :=
  { cam_index := 0
    delay_sec := 3
    delay_sec_max := 45
    fps := 30
    height := 1080
    width := 1980
    now_fps := 0
    frame := some 10
    running := true
    recording := true
    process := some 1
    writer := none
    buffer := [(0, 10)] }

/-- The state `recState` reaches after capturing frame `20` at time 5. -/
def recStateAfter : CameraState :=
  { recState with buffer := [(0, 10), (5, 20)], frame := some 10 }

/-- A recording state of the `main.py` stream variant. -/
def mRecState : MCamState :=
  { cam_index := 0
    delay_sec := 3
    fps := 60
    buffer := [(0, 10)]
    running := true
    frame := some 10
    delay_frame := some 10
    recording := true
    writer := some 1 }

/-- The state reached by starting a recording from a fresh stream. -/
def startedState : CameraState :=
  { cameraInit 0 0 45 30 1080 1980 with process := some 7, recording := true }

/-- The state reached by stopping the recording of `recState`. -/
def stoppedState : CameraState :=
  { recState with recording := false, process := none }

/-- The age test of the selection scan, as a Boolean predicate on buffer
entries. -/
def ageOk (timestamp delay_sec : ℚ) (e : ℚ × Frame) : Bool :=
  decide (timestamp - e.1 ≥ delay_sec)

/-! ## Helper lemmas about the selection scan -/

lemma selectEntryGo_eq_or (timestamp delay_sec : ℚ) (l : List (ℚ × Frame))
    (acc : Option (ℚ × Frame)) :
    selectEntryGo timestamp delay_sec l acc =
      Option.or ((l.takeWhile (ageOk timestamp delay_sec)).getLast?) acc := by
  induction l generalizing acc with
  | nil => simp [selectEntryGo, Option.or]
  | cons e rest ih =>
    obtain ⟨t, f⟩ := e
    by_cases h : timestamp - t ≥ delay_sec
    · rw [selectEntryGo, if_pos h, ih, List.takeWhile_cons,
        if_pos (by simpa [ageOk] using h)]
      cases htw : rest.takeWhile (ageOk timestamp delay_sec) with
      | nil => simp [Option.or]
      | cons b l2 =>
        rw [List.getLast?_cons_cons]
        obtain ⟨x, hx⟩ := Option.isSome_iff_exists.mp
          (List.getLast?_isSome.mpr (List.cons_ne_nil b l2))
        rw [hx]
        simp [Option.or]
    · rw [selectEntryGo, if_neg h, List.takeWhile_cons,
        if_neg (by simpa [ageOk] using h)]
      simp [Option.or]

lemma selectEntry_eq_getLast (buffer : List (ℚ × Frame))
    (timestamp delay_sec : ℚ) :
    selectEntry buffer timestamp delay_sec =
      (buffer.takeWhile (ageOk timestamp delay_sec)).getLast? := by
  rw [selectEntry, selectEntryGo_eq_or, Option.or_none]

lemma selectGo_eq_map (timestamp delay_sec : ℚ) (l : List (ℚ × Frame))
    (acc : Option (ℚ × Frame)) :
    selectGo timestamp delay_sec l (acc.map Prod.snd) =
      (selectEntryGo timestamp delay_sec l acc).map Prod.snd := by
  induction l generalizing acc with
  | nil => rfl
  | cons e rest ih =>
    obtain ⟨t, f⟩ := e
    by_cases h : timestamp - t ≥ delay_sec
    · rw [selectGo, if_pos h, selectEntryGo, if_pos h]
      simpa using ih (some (t, f))
    · rw [selectGo, if_neg h, selectEntryGo, if_neg h]

lemma selectDelayed_eq_map (buffer : List (ℚ × Frame))
    (timestamp delay_sec : ℚ) :
    selectDelayed buffer timestamp delay_sec =
      (selectEntry buffer timestamp delay_sec).map Prod.snd := by
  have h := selectGo_eq_map timestamp delay_sec buffer none
  simpa [selectDelayed, selectEntry] using h

lemma mem_of_getLast_some {α : Type} {l : List α} {e : α}
    (h : l.getLast? = some e) : e ∈ l := by
  induction l with
  | nil => simp at h
  | cons a rest ih =>
    cases rest with
    | nil =>
      simp at h
      simp [h]
    | cons b l2 =>
      rw [List.getLast?_cons_cons] at h
      exact List.mem_cons_of_mem a (ih h)

lemma le_getLast_of_sorted {l : List (ℚ × Frame)} {e x : ℚ × Frame}
    (hs : l.Pairwise fun a b => a.1 ≤ b.1) (hx : x ∈ l)
    (he : l.getLast? = some e) : x.1 ≤ e.1 := by
  induction l with
  | nil => simp at hx
  | cons a rest ih =>
    rw [List.pairwise_cons] at hs
    cases rest with
    | nil =>
      simp at he hx
      subst hx
      rw [he]
    | cons b l2 =>
      rw [List.getLast?_cons_cons] at he
      have hemem : e ∈ b :: l2 := mem_of_getLast_some he
      rcases List.mem_cons.mp hx with rfl | hx2
      · exact hs.1 e hemem
      · exact ih hs.2 hx2 he

lemma head_le_of_sorted {l : List (ℚ × Frame)} {a x : ℚ × Frame}
    (hs : l.Pairwise fun p q => p.1 ≤ q.1) (hx : x ∈ l)
    (hh : l.head? = some a) : a.1 ≤ x.1 := by
  cases l with
  | nil => simp at hx
  | cons h t =>
    simp at hh
    subst hh
    rw [List.pairwise_cons] at hs
    rcases List.mem_cons.mp hx with rfl | hx2
    · exact le_refl _
    · exact hs.1 x hx2

lemma takeWhile_sublist_mono {α : Type} {p q : α → Bool}
    (hpq : ∀ a, p a = true → q a = true) :
    ∀ l : List α, (l.takeWhile p).Sublist (l.takeWhile q)
  | [] => by simp
  | a :: l => by
    by_cases h : p a = true
    · rw [List.takeWhile_cons, if_pos h, List.takeWhile_cons, if_pos (hpq a h)]
      exact List.Sublist.cons₂ a (takeWhile_sublist_mono hpq l)
    · rw [List.takeWhile_cons, if_neg (by simp [h])]
      exact List.nil_sublist _

lemma head_dropWhile_false {α : Type} {p : α → Bool} :
    ∀ {l : List α} {a : α} {t : List α}, l.dropWhile p = a :: t → p a = false
  | [], a, t, h => by simp [List.dropWhile] at h
  | b :: l, a, t, h => by
    rw [List.dropWhile_cons] at h
    by_cases hb : p b = true
    · rw [if_pos hb] at h
      exact head_dropWhile_false h
    · rw [if_neg hb] at h
      injection h with h1 h2
      subst h1
      simpa using hb

lemma eq_of_sorted_fst_eq {l : List (ℚ × Frame)} {a b : ℚ × Frame}
    (hs : l.Pairwise fun p q => p.1 < q.1) (ha : a ∈ l) (hb : b ∈ l)
    (hfst : a.1 = b.1) : a = b := by
  induction l with
  | nil => simp at ha
  | cons x rest ih =>
    rw [List.pairwise_cons] at hs
    rcases List.mem_cons.mp ha with rfl | ha2 <;>
      rcases List.mem_cons.mp hb with rfl | hb2
    · rfl
    · exact absurd hfst (ne_of_lt (hs.1 b hb2))
    · exact absurd hfst.symm (ne_of_lt (hs.1 a ha2))
    · exact ih hs.2 ha2 hb2

/-! ## Claim theorems -/

/-- Claim C2 counterexample: with a single just-captured entry (age 0) and a
requested delay of 3 s, the selection of `camera.py` returns `None` even
though the buffer is non-empty — there is no newest-entry fallback. -/
theorem C2_counterexample :
    selectDelayed [((5 : ℚ), (20 : Frame))] 5 3 = none ∧
    ([((5 : ℚ), (20 : Frame))] : List (ℚ × Frame)) ≠ [] := by
  constructor
  · rw [selectDelayed, selectGo, if_neg (by norm_num)]
  · simp

/-- Claim C2 (amended): the selection returns `None` on the empty buffer,
and also returns `None` — rather than falling back to the newest entry —
whenever no buffered entry has age at least the requested delay. -/
theorem C2_amended_no_fallback (buffer : List (ℚ × Frame)) (ts d : ℚ)
    (hall : ∀ e ∈ buffer, ts - e.1 < d) :
    selectDelayed buffer ts d = none ∧
    selectDelayed ([] : List (ℚ × Frame)) ts d = none := by
  refine ⟨?_, rfl⟩
  cases buffer with
  | nil => rfl
  | cons hd rest =>
    obtain ⟨t, f⟩ := hd
    have h := hall (t, f) (List.mem_cons_self _ _)
    rw [selectDelayed, selectGo, if_neg (not_le.mpr h)]

/-- Claim C2 witness: the amended statement evaluated on a concrete
buffer. -/
theorem C2_witness :
    selectDelayed [((5 : ℚ), (20 : Frame))] 5 3 = none ∧
    selectDelayed ([] : List (ℚ × Frame)) 5 3 = none := by
  refine C2_amended_no_fallback [((5 : ℚ), (20 : Frame))] 5 3 ?_
  intro e he
  rw [List.mem_singleton] at he
  subst he
  norm_num

/-- Claim C4: after a push at time `t`, the retained buffer is exactly the
filtered subsequence of the previous entries whose age is at most
`delay_sec_max`, followed by the new entry; every retained entry has age at
most `delay_sec_max`, and an entry of age exactly `delay_sec_max` is
retained. -/
theorem C4_eviction (buffer : List (ℚ × Frame)) (t maxAge : ℚ) (f : Frame)
    (h0 : 0 ≤ maxAge) :
    evictPush buffer t maxAge f =
      (buffer.filter fun e => decide (t - e.1 ≤ maxAge)) ++ [(t, f)] ∧
    (∀ e ∈ evictPush buffer t maxAge f, t - e.1 ≤ maxAge) ∧
    (∀ e, e ∈ evictPush buffer t maxAge f ↔
      (e ∈ buffer ∧ t - e.1 ≤ maxAge) ∨ e = (t, f)) ∧
    (∀ e ∈ buffer, t - e.1 = maxAge → e ∈ evictPush buffer t maxAge f) ∧
    (evictPush buffer t maxAge f).dropLast.Sublist buffer ∧
    (evictPush buffer t maxAge f).getLast? = some (t, f) := by
  refine ⟨rfl, ?_, ?_, ?_, ?_, ?_⟩
  · intro e he
    rcases List.mem_append.mp he with h | h
    · exact of_decide_eq_true (List.mem_filter.mp h).2
    · rw [List.mem_singleton] at h
      subst h
      simpa using h0
  · intro e
    simp [evictPush, List.mem_append, List.mem_filter]
  · intro e he heq
    exact List.mem_append.mpr
      (Or.inl (List.mem_filter.mpr ⟨he, decide_eq_true (le_of_eq heq)⟩))
  · rw [evictPush, List.dropLast_concat]
    exact List.filter_sublist _
  · exact List.getLast?_concat _

/-- Claim C4 witness: the spec's own example, pushed at `t = 50` with
`max_age = 45`: the entry of age 46 is evicted, the entry of age exactly 45
is retained and the new entry sits at the back. -/
theorem C4_witness :
    evictPush [((4 : ℚ), (1 : Frame)), (5, 2)] 50 45 3 = [(5, 2), (50, 3)] := by
  have h := C4_eviction [((4 : ℚ), (1 : Frame)), (5, 2)] 50 45 3 (by norm_num)
  rw [h.1]
  norm_num [List.filter]

/-- Claim C5: `set_delay` stores `min (max 0 v) (delay_sec_max - 1)`, which
is nonnegative, strictly below `delay_sec_max`, at most `delay_sec_max - 1`,
and every other field of the state is unchanged. -/
theorem C5_set_delay_clamped (s : CameraState) (v : ℚ)
    (h1 : 1 ≤ s.delay_sec_max) :
    0 ≤ (set_delay s v).delay_sec ∧
    (set_delay s v).delay_sec < s.delay_sec_max ∧
    (set_delay s v).delay_sec ≤ s.delay_sec_max - 1 ∧
    (set_delay s v).delay_sec_max = s.delay_sec_max ∧
    (set_delay s v).buffer = s.buffer ∧
    (set_delay s v).frame = s.frame ∧
    (set_delay s v).recording = s.recording ∧
    (set_delay s v).process = s.process ∧
    (set_delay s v).writer = s.writer ∧
    (set_delay s v).running = s.running ∧
    (set_delay s v).cam_index = s.cam_index ∧
    (set_delay s v).fps = s.fps ∧
    (set_delay s v).height = s.height ∧
    (set_delay s v).width = s.width ∧
    (set_delay s v).now_fps = s.now_fps := by
  refine ⟨?_, ?_, ?_, rfl, rfl, rfl, rfl, rfl, rfl, rfl, rfl, rfl, rfl, rfl, rfl⟩
  · exact le_min (le_max_left 0 v) (by linarith)
  · exact lt_of_le_of_lt (min_le_right _ _) (by linarith)
  · exact min_le_right _ _

/-- Claim C5 witness: the clamp evaluated on a fresh stream with
`delay_sec_max = 45` and the out-of-range request 100. -/
theorem C5_witness :
    0 ≤ (set_delay (cameraInit 0 0 45 30 1080 1980) 100).delay_sec ∧
    (set_delay (cameraInit 0 0 45 30 1080 1980) 100).delay_sec < 45 := by
  have h := C5_set_delay_clamped (cameraInit 0 0 45 30 1080 1980) 100
    (by norm_num [cameraInit])
  exact ⟨h.1, by simpa [cameraInit] using h.2.1⟩

/-- Claim C8 counterexample: on a state with an active session,
`start_recording` does not fail with `AlreadyRecording` (or any error): it
returns silently with the state unchanged and no effects. -/
theorem C8_counterexample :
    start_recording recState "out.avi" 7 = Except.ok (recState, []) ∧
    start_recording recState "out.avi" 7 ≠
      Except.error RecErr.AlreadyRecording := by
  have hok : start_recording recState "out.avi" 7 = Except.ok (recState, []) :=
    rfl
  refine ⟨hok, ?_⟩
  rw [hok]
  simp

/-- Claim C8 (amended): if a session is already active, `start_recording`
returns silently — signalling no error — and leaves the existing session
unchanged: same state (same recording flag and process handle) and no
encoder spawned, so at most one session is ever active per source. -/
theorem C8_amended_silent (s : CameraState) (fn : String) (pid : ℕ)
    (h : s.recording = true) :
    start_recording s fn pid = Except.ok (s, []) := by
  rw [start_recording, if_pos h]

/-- Claim C8 witness: the amended statement evaluated on the concrete
active state. -/
theorem C8_witness :
    start_recording recState "clip.avi" 7 = Except.ok (recState, []) :=
  C8_amended_silent recState "clip.avi" 7 rfl

/-- Claim C9: on a cycle whose capture fails, the loop body of `camera.py`
raises nothing and changes nothing: the state (hence the delay buffer and
the published frame) is returned unchanged and no effect reaches the
recording sink. -/
theorem C9_capture_fail_skip (s : CameraState) (ts : ℚ) :
    loopCycle s Capture.fail ts = some (s, []) := rfl

/-- Claim C7: under the handle invariant, `stop_recording` raises nothing,
is a no-op when no session is active (including a never-started stream),
and is idempotent: a second call finds the flag cleared, returns the state
unchanged and performs no further effects. -/
theorem C7_stop_idempotent (s : CameraState)
    (hinv : s.recording = true → s.process.isSome = true) :
    (s.recording = false → stop_recording s = some (s, [])) ∧
    (stop_recording s).isSome = true ∧
    ∀ s1 ef, stop_recording s = some (s1, ef) →
      stop_recording s1 = some (s1, []) ∧ s1.recording = false := by
  by_cases hrec : s.recording = true
  · obtain ⟨p, hp⟩ := Option.isSome_iff_exists.mp (hinv hrec)
    have hstop : stop_recording s =
        some ({ s with recording := false, process := none },
          [Effect.stdinClose, Effect.processWait]) := by
      rw [stop_recording, if_pos hrec, hp]
    refine ⟨fun hfalse => absurd hrec (by simp [hfalse]), by simp [hstop], ?_⟩
    intro s1 ef heq
    rw [hstop] at heq
    simp only [Option.some.injEq, Prod.mk.injEq] at heq
    obtain ⟨h1, -⟩ := heq
    subst h1
    exact ⟨by rw [stop_recording, if_neg (by simp)], rfl⟩
  · have hrec2 : s.recording = false := by simpa using hrec
    have hstop : stop_recording s = some (s, []) := by
      rw [stop_recording, if_neg hrec]
    refine ⟨fun _ => hstop, by simp [hstop], ?_⟩
    intro s1 ef heq
    rw [hstop] at heq
    simp only [Option.some.injEq, Prod.mk.injEq] at heq
    obtain ⟨h1, -⟩ := heq
    subst h1
    exact ⟨hstop, hrec2⟩

/-- Claim C7 witness: stopping the active session of `recState` and then
stopping again; and stopping a never-started fresh stream. -/
theorem C7_witness :
    stop_recording stoppedState = some (stoppedState, []) ∧
    stoppedState.recording = false ∧
    stop_recording (cameraInit 0 0 45 30 1080 1980) =
      some (cameraInit 0 0 45 30 1080 1980, []) := by
  have h := C7_stop_idempotent recState (fun _ => rfl)
  have h2 := h.2.2 stoppedState [Effect.stdinClose, Effect.processWait] rfl
  have h3 := C7_stop_idempotent (cameraInit 0 0 45 30 1080 1980)
    (by intro hx; simp [cameraInit] at hx)
  exact ⟨h2.1, h2.2, h3.1 rfl⟩

/-- Fields that one capture cycle of `camera.py` never touches: the
recording flag and the process handle. -/
lemma loopCycle_keeps_recording (s : CameraState) (cap : Capture) (ts : ℚ)
    (s2 : CameraState) (ef : List Effect)
    (heq : loopCycle s cap ts = some (s2, ef)) :
    s2.recording = s.recording ∧ s2.process = s.process := by
  cases cap with
  | fail =>
    simp only [loopCycle, Option.some.injEq, Prod.mk.injEq] at heq
    obtain ⟨h1, -⟩ := heq
    subst h1
    exact ⟨rfl, rfl⟩
  | ok f =>
    simp only [loopCycle] at heq
    split at heq
    · split at heq
      · exact absurd heq (by simp)
      · simp only [Option.some.injEq, Prod.mk.injEq] at heq
        obtain ⟨h1, -⟩ := heq
        subst h1
        exact ⟨rfl, rfl⟩
    · simp only [Option.some.injEq, Prod.mk.injEq] at heq
      obtain ⟨h1, -⟩ := heq
      subst h1
      exact ⟨rfl, rfl⟩

/-- Claim C10: the invariant "recording implies a live process handle"
holds initially and is preserved by `start_recording`, `stop_recording`
and every successful capture-loop cycle. -/
theorem C10_process_invariant :
    (∀ ci d dm fps h w, procInv (cameraInit ci d dm fps h w)) ∧
    (∀ s fn pid s2 ef, procInv s →
      start_recording s fn pid = Except.ok (s2, ef) → procInv s2) ∧
    (∀ s s2 ef, procInv s → stop_recording s = some (s2, ef) → procInv s2) ∧
    (∀ s cap ts s2 ef, procInv s → loopCycle s cap ts = some (s2, ef) →
      procInv s2) := by
  refine ⟨?_, ?_, ?_, ?_⟩
  · intro ci d dm fps h w hrec
    simp [cameraInit] at hrec
  · intro s fn pid s2 ef hs heq
    by_cases hrec : s.recording = true
    · rw [start_recording, if_pos hrec] at heq
      simp only [Except.ok.injEq, Prod.mk.injEq] at heq
      obtain ⟨h1, -⟩ := heq
      subst h1
      exact hs
    · rw [start_recording, if_neg hrec] at heq
      simp only [Except.ok.injEq, Prod.mk.injEq] at heq
      obtain ⟨h1, -⟩ := heq
      subst h1
      intro _
      rfl
  · intro s s2 ef hs heq
    by_cases hrec : s.recording = true
    · obtain ⟨p, hp⟩ := Option.isSome_iff_exists.mp (hs hrec)
      rw [stop_recording, if_pos hrec, hp] at heq
      simp only [Option.some.injEq, Prod.mk.injEq] at heq
      obtain ⟨h1, -⟩ := heq
      subst h1
      intro hx
      simp at hx
    · rw [stop_recording, if_neg hrec] at heq
      simp only [Option.some.injEq, Prod.mk.injEq] at heq
      obtain ⟨h1, -⟩ := heq
      subst h1
      exact hs
  · intro s cap ts s2 ef hs heq
    obtain ⟨h1, h2⟩ := loopCycle_keeps_recording s cap ts s2 ef heq
    intro hr
    rw [h2]
    exact hs (h1 ▸ hr)

/-- Claim C10 witness: the invariant evaluated along a concrete trajectory:
fresh stream, after starting a recording, after a recording cycle, and
after stopping. -/
theorem C10_witness :
    procInv (cameraInit 0 0 45 30 1080 1980) ∧ procInv startedState ∧
    procInv stoppedState ∧ procInv recStateAfter := by
  refine ⟨C10_process_invariant.1 0 0 45 30 1080 1980, ?_, ?_, ?_⟩
  · exact C10_process_invariant.2.1 (cameraInit 0 0 45 30 1080 1980)
      "clip.avi" 7 startedState [Effect.spawnEncoder "clip.avi"]
      (by intro hx; simp [cameraInit] at hx) rfl
  · exact C10_process_invariant.2.2.1 recState stoppedState
      [Effect.stdinClose, Effect.processWait] (fun _ => rfl) rfl
  · exact C10_process_invariant.2.2.2 recState (Capture.ok 20) 5 recStateAfter
      [Effect.sinkWrite 10] (fun _ => rfl)
      (by norm_num [loopCycle, evictPush, selectDelayed, selectGo,
        recState, recStateAfter])

/-- Claim C1 counterexample: a recording cycle of `camera.py` with delay
3 s forwards the delayed frame `10` selected from the buffer to the
encoder, not the just-captured raw frame `20`. -/
theorem C1_counterexample :
    loopCycle recState (Capture.ok 20) 5 =
      some (recStateAfter, [Effect.sinkWrite 10]) ∧
    (10 : Frame) ≠ 20 := by
  constructor
  · norm_num [loopCycle, evictPush, selectDelayed, selectGo,
      recState, recStateAfter]
  · decide

/-- Claim C1 (amended): on a recording cycle, `camera.py`'s loop forwards
to the encoder exactly the delayed frame selected from the buffer (which
coincides with the raw frame only when the selection returns the newest
entry); `main.py`'s update, by contrast, forwards the just-captured raw
frame. -/
theorem C1_amended_sink (s : CameraState) (m : MCamState) (f g : Frame)
    (ts : ℚ) (hrec : s.recording = true) (hproc : s.process.isSome = true)
    (hsel : selectDelayed (evictPush s.buffer ts s.delay_sec_max f) ts
      s.delay_sec = some g)
    (hmrec : m.recording = true) (hmw : m.writer.isSome = true) :
    (loopCycle s (Capture.ok f) ts).map Prod.snd =
      some [Effect.sinkWrite g] ∧
    (mUpdateCycle m (Capture.ok f) ts).2 = [Effect.sinkWrite f] := by
  constructor
  · simp only [loopCycle, hsel, hrec, hproc, Bool.and_self, if_pos]
    simp
  · simp only [mUpdateCycle, hmrec, hmw, Bool.and_self, if_pos]

/-- Claim C1 witness: the amended statement evaluated on the concrete
recording states of both variants. -/
theorem C1_amended_witness :
    (loopCycle recState (Capture.ok 20) 5).map Prod.snd =
      some [Effect.sinkWrite 10] ∧
    (mUpdateCycle mRecState (Capture.ok 20) 5).2 = [Effect.sinkWrite 20] :=
  C1_amended_sink recState mRecState 20 10 5 rfl rfl
    (by norm_num [recState, evictPush, selectDelayed, selectGo]) rfl rfl

/-- Claim C6: for a fixed sorted buffer snapshot the selection is monotone
in the delay: with `d1 ≤ d2`, the entry selected for `d2` is never newer
than the one selected for `d1`, and `selectDelayed` returns exactly the
frames of those entries. -/
theorem C6_monotone (buffer : List (ℚ × Frame)) (ts d1 d2 : ℚ)
    (e1 e2 : ℚ × Frame)
    (hsorted : buffer.Pairwise fun a b => a.1 ≤ b.1)
    (h12 : d1 ≤ d2)
    (h1 : selectEntry buffer ts d1 = some e1)
    (h2 : selectEntry buffer ts d2 = some e2) :
    e2.1 ≤ e1.1 ∧
    selectDelayed buffer ts d1 = some e1.2 ∧
    selectDelayed buffer ts d2 = some e2.2 := by
  have himp : ∀ a : ℚ × Frame, ageOk ts d2 a = true → ageOk ts d1 a = true := by
    intro a ha
    simp only [ageOk, decide_eq_true_eq] at ha ⊢
    linarith
  have hsub : (buffer.takeWhile (ageOk ts d2)).Sublist
      (buffer.takeWhile (ageOk ts d1)) :=
    takeWhile_sublist_mono himp buffer
  have h1g := h1
  have h2g := h2
  rw [selectEntry_eq_getLast] at h1g h2g
  have h2mem : e2 ∈ buffer.takeWhile (ageOk ts d1) :=
    List.Sublist.mem (mem_of_getLast_some h2g) hsub
  have hm1s : (buffer.takeWhile (ageOk ts d1)).Pairwise
      (fun a b : ℚ × Frame => a.1 ≤ b.1) :=
    List.Pairwise.sublist (List.takeWhile_sublist _) hsorted
  refine ⟨le_getLast_of_sorted hm1s h2mem h1g, ?_, ?_⟩
  · rw [selectDelayed_eq_map, h1, Option.map_some']
  · rw [selectDelayed_eq_map, h2, Option.map_some']

/-- Claim C6 witness: the monotonicity evaluated on a concrete two-entry
buffer with delays 0 and 3. -/
theorem C6_witness :
    (((0 : ℚ), (10 : Frame)) : ℚ × Frame).1 ≤
      (((5 : ℚ), (20 : Frame)) : ℚ × Frame).1 ∧
    selectDelayed [((0 : ℚ), (10 : Frame)), (5, 20)] 5 0 =
      some (((5 : ℚ), (20 : Frame)) : ℚ × Frame).2 ∧
    selectDelayed [((0 : ℚ), (10 : Frame)), (5, 20)] 5 3 =
      some (((0 : ℚ), (10 : Frame)) : ℚ × Frame).2 :=
  C6_monotone [((0 : ℚ), (10 : Frame)), (5, 20)] 5 0 3 (5, 20) (0, 10)
    (by norm_num [List.pairwise_cons]) (by norm_num)
    (by norm_num [selectEntry, selectEntryGo])
    (by norm_num [selectEntry, selectEntryGo])

/-- Claim C3: on a strictly sorted buffer whose newest timestamp is `tn`,
if some entry has age at least `d`, the selection returns the qualifying
entry with the largest timestamp; in particular for `d = 0` it returns the
newest entry. -/
theorem C3_selection_correct (buffer : List (ℚ × Frame)) (tn d : ℚ)
    (g : Frame)
    (hsorted : buffer.Pairwise fun a b => a.1 < b.1)
    (hlast : buffer.getLast? = some (tn, g))
    (hex : ∃ e ∈ buffer, tn - e.1 ≥ d) :
    ∃ e ∈ buffer,
      selectEntry buffer tn d = some e ∧
      selectDelayed buffer tn d = some e.2 ∧
      tn - e.1 ≥ d ∧
      (∀ e2 ∈ buffer, tn - e2.1 ≥ d → e2.1 ≤ e.1) ∧
      (d = 0 → selectDelayed buffer tn d = some g) := by
  obtain ⟨w, hwmem, hwq⟩ := hex
  have hsle : buffer.Pairwise fun a b : ℚ × Frame => a.1 ≤ b.1 :=
    hsorted.imp fun h => le_of_lt h
  cases hbuf : buffer with
  | nil =>
    rw [hbuf] at hlast
    simp at hlast
  | cons hd rest =>
    subst hbuf
    have hhdq : ageOk tn d hd = true := by
      have hw1 : hd.1 ≤ w.1 := head_le_of_sorted hsle hwmem rfl
      simp only [ageOk, decide_eq_true_eq]
      have : tn - w.1 ≥ d := hwq
      linarith
    have hmne : (hd :: rest).takeWhile (ageOk tn d) ≠ [] := by
      rw [List.takeWhile_cons, if_pos hhdq]
      simp
    obtain ⟨e, he⟩ := Option.isSome_iff_exists.mp
      (List.getLast?_isSome.mpr hmne)
    have hsel : selectEntry (hd :: rest) tn d = some e := by
      rw [selectEntry_eq_getLast]
      exact he
    have hem : e ∈ (hd :: rest).takeWhile (ageOk tn d) :=
      mem_of_getLast_some he
    have hemem : e ∈ hd :: rest :=
      List.Sublist.mem hem (List.takeWhile_sublist _)
    have heq : tn - e.1 ≥ d := by
      have := List.mem_takeWhile_imp hem
      simpa [ageOk, decide_eq_true_eq] using this
    have hmax : ∀ e2 ∈ hd :: rest, tn - e2.1 ≥ d → e2.1 ≤ e.1 := by
      intro e2 he2 hq2
      have hsplit : (hd :: rest).takeWhile (ageOk tn d) ++
          (hd :: rest).dropWhile (ageOk tn d) = hd :: rest :=
        List.takeWhile_append_dropWhile _ _
      have he2s : e2 ∈ (hd :: rest).takeWhile (ageOk tn d) ∨
          e2 ∈ (hd :: rest).dropWhile (ageOk tn d) := by
        rw [← hsplit] at he2
        exact List.mem_append.mp he2
      rcases he2s with h2m | h2d
      · have hms : ((hd :: rest).takeWhile (ageOk tn d)).Pairwise
            (fun a b : ℚ × Frame => a.1 ≤ b.1) :=
          List.Pairwise.sublist (List.takeWhile_sublist _) hsle
        exact le_getLast_of_sorted hms h2m he
      · exfalso
        cases hdw : (hd :: rest).dropWhile (ageOk tn d) with
        | nil =>
          rw [hdw] at h2d
          simp at h2d
        | cons a t2 =>
          rw [hdw] at h2d
          have hfa : ageOk tn d a = false := head_dropWhile_false hdw
          have hfa2 : tn - a.1 < d := by
            simp only [ageOk, decide_eq_false_iff_not, not_le] at hfa
            exact hfa
          have hds : (a :: t2).Pairwise
              (fun p q : ℚ × Frame => p.1 ≤ q.1) := by
            have hsub2 : ((hd :: rest).dropWhile (ageOk tn d)).Sublist
                (hd :: rest) := by
              conv_rhs => rw [← hsplit]
              exact List.sublist_append_right _ _
            rw [hdw] at hsub2
            exact List.Pairwise.sublist hsub2 hsle
          have hax : a.1 ≤ e2.1 := head_le_of_sorted hds h2d rfl
          linarith
    refine ⟨e, hemem, hsel, ?_, heq, hmax, ?_⟩
    · rw [selectDelayed_eq_map, hsel, Option.map_some']
    · intro hd0
      subst hd0
      have hlmem : ((tn, g) : ℚ × Frame) ∈ hd :: rest :=
        mem_of_getLast_some hlast
      have h3 : ((tn, g) : ℚ × Frame).1 ≤ e.1 := hmax _ hlmem (by simp)
      have h4 : e.1 ≤ ((tn, g) : ℚ × Frame).1 :=
        le_getLast_of_sorted hsle hemem hlast
      have hee : e = ((tn, g) : ℚ × Frame) :=
        eq_of_sorted_fst_eq hsorted hemem hlmem (le_antisymm h4 h3)
      rw [selectDelayed_eq_map, hsel, hee, Option.map_some']

/-- Claim C3 witness: the selection evaluated on a concrete two-entry
buffer, delay 3: the qualifying entry with the largest timestamp is the one
of age 5. -/
theorem C3_witness :
    selectDelayed [((0 : ℚ), (10 : Frame)), (5, 20)] 5 3 = some 10 := by
  obtain ⟨e, hmem, hsel, hdel, hq, hmax, h0⟩ :=
    C3_selection_correct [((0 : ℚ), (10 : Frame)), (5, 20)] 5 3 20
      (by norm_num [List.pairwise_cons]) rfl
      ⟨(0, 10), by simp, by norm_num⟩
  have h2 : selectEntry [((0 : ℚ), (10 : Frame)), (5, 20)] 5 3 =
      some (0, 10) := by
    norm_num [selectEntry, selectEntryGo]
  have hee : e = ((0 : ℚ), (10 : Frame)) :=
    (Option.some.inj (h2.symm.trans hsel)).symm
  rw [hdel, hee]
